import Mathlib

/-!
Verification of the `urfs` concurrent file-system walker (package `urfs`,
files `urfs.go` and `fsutil.go`) against its natural-language specification.

We give a shallow embedding of the walker.  Pure control flow is translated
directly; the Go standard library pieces the code calls are modelled as
parameters or small state structures:

* `filepath.Match` is an external dependency of `filterPaths`; we model it as
  a parameter `matchFn : String → String → Option Bool`, where `none` stands
  for `ErrBadPattern` (the only error `filepath.Match` can return).
* `filepath.Walk` performs a depth-first traversal, calling the walk
  function on every entry (root first, then children); `visitTree` flattens
  a tree into that visit sequence.
* Channels are modelled as lists; the concurrent execution of producer,
  workers and collector is modelled twice: once functionally (the
  completed, uncancelled run) and once as a small-step transition system
  (`Step`/`Reach`) for the in-flight invariants and the error-propagation
  policy of `errgroup`.
* `context.Context` carries only what `Reset` observes: an optional
  deadline.  A Go `nil` interface value is `Option.none`; calling a method
  on it is a nil-dereference, modelled by `Reset` returning `none`.
-/

/-- Errors that can flow through the walk.  `errBadPattern` is
`filepath.ErrBadPattern`; `walkErr` is a traversal error handed to the walk
callback by `filepath.Walk`; `transformErr` is an error returned by the
caller-supplied `WalkFunc`; `ctxCanceled` is `ctx.Err()` after
cancellation. -/
inductive GoErr where
  | errBadPattern : GoErr
  | walkErr : String → GoErr
  | transformErr : String → GoErr
  | ctxCanceled : GoErr
deriving DecidableEq

/-- The part of `os.FileInfo` that `filterPaths` reads: `Name()`,
`Mode().IsRegular()` and `IsDir()`. -/
structure FileInfo where
  name : String
  isRegular : Bool
  isDir : Bool
deriving DecidableEq

/-- One call that `filepath.Walk` makes to its walk function: the incoming
`err` argument, the full `path`, and the entry's `FileInfo`. -/
structure VisitEntry where
  err : Option GoErr
  path : String
  info : FileInfo
deriving DecidableEq

/-- The model of `context.Context` restricted to what `Reset` observes: the
optional deadline reported by `Deadline()`.  (Deadlines are abstract time
stamps, modelled as naturals.) -/
structure Ctx where
  deadline : Option Nat
deriving DecidableEq

/-- Model of `context.Background()`: no deadline. -/
def context_Background : Ctx := { deadline := none }

/-- Model of `context.WithDeadline(c, d)`: the derived context carries
deadline `d`. -/
def context_WithDeadline (_c : Ctx) (d : Nat) : Ctx := { deadline := some d }

/-- Model of `errgroup.WithContext(c)`: the derived context has the same
deadline as `c` (it adds cancellation, which the `Ctx` model does not
track). -/
def errgroup_WithContext (c : Ctx) : Ctx := c

/-- The `FSWalker` struct of `urfs.go`.  Channels are lists of their queued
contents, `group` is not represented (its error bookkeeping is part of the
execution models below), `ctx` is `none` for the Go zero value (nil
interface), and `time.Time`/`time.Duration` are naturals with `0` as the
zero value. -/
structure FSWalker where
  Workers : Nat
  SkipHidden : Bool
  SkipDirs : Bool
  Match : String
  root : String
  paths : List String
  nPaths : Nat
  results : List String
  nResults : Nat
  ctx : Option Ctx
  started : Nat
  duration : Nat
deriving DecidableEq

/-- A model of Go's `filepath.Match pattern name`: `some b` when matching
succeeds with answer `b`, `none` for `ErrBadPattern`. -/
def MatchFn : Type := String → String → Option Bool

/-- Model of Go's `strings.HasPrefix s pre`: whether `pre` is a prefix of
`s` (computed on the character lists so that it evaluates by reduction). -/
def strings_HasPrefix (s pre : String) : Bool := pre.data.isPrefixOf s.data

/-- The `FSWalker.filterPaths` callback of `urfs.go` (lines 148–194), as the
verdict for one visited entry: `Except.error e` when it returns the error
`e`, `Except.ok true` when it counts the path and sends it on the paths
channel, `Except.ok false` when it returns `nil` without emitting. -/
def filterPaths (fs : FSWalker) (matchFn : MatchFn) (v : VisitEntry) :
    Except GoErr Bool :=
  match v.err with
  | some e => Except.error e
  | none =>
    if !v.info.isRegular then Except.ok false
    else if fs.SkipHidden && (strings_HasPrefix v.info.name "." || strings_HasPrefix v.info.name "~") then
      Except.ok false
    else if fs.SkipDirs && v.info.isDir then Except.ok false
    else
      match matchFn fs.Match v.info.name with
      | none => Except.error GoErr.errBadPattern
      | some m => Except.ok m

/-- Whether `filterPaths` emits the entry (counts it in `nPaths` and sends
it to the paths channel). -/
def isEligible (fs : FSWalker) (matchFn : MatchFn) (v : VisitEntry) : Bool :=
  match filterPaths fs matchFn v with
  | Except.ok true => true
  | _ => false

/-- The producer (`FSWalker.walk` running `filepath.Walk` with
`filterPaths`) over a visit sequence: the list of paths it sends on the
paths channel, in order, and the error that aborted the traversal, if any
(`filepath.Walk` stops at the first error the callback returns). -/
def producePaths (fs : FSWalker) (matchFn : MatchFn) :
    List VisitEntry → List String × Option GoErr
  | [] => ([], none)
  | v :: rest =>
    match filterPaths fs matchFn v with
    | Except.error e => ([], some e)
    | Except.ok true =>
      let pr := producePaths fs matchFn rest
      (v.path :: pr.1, pr.2)
    | Except.ok false => producePaths fs matchFn rest

/-- Number of entries of the visit sequence that satisfy the path filter. -/
def eligibleCount (fs : FSWalker) (matchFn : MatchFn) (visits : List VisitEntry) : Nat :=
  (visits.filter (isEligible fs matchFn)).length

/-- Outcome of one worker consuming a queue of paths: the results it sent on
the results channel, the error it returned (if any), and the paths left
unconsumed when it stopped. -/
structure WorkerOut where
  results : List String
  err : Option GoErr
  leftover : List String
deriving DecidableEq

/-- The worker closure built by `FSWalker.worker` (lines 198–224) applied to
the sequence of paths it receives from the paths channel: applies `walkFn`
to each path; on error it stops consuming and returns the error; a
non-empty result is sent on the results channel; an empty result emits
nothing. -/
def worker (walkFn : String → Except GoErr String) : List String → WorkerOut
  | [] => { results := [], err := none, leftover := [] }
  | p :: rest =>
    match walkFn p with
    | Except.error e => { results := [], err := some e, leftover := rest }
    | Except.ok r =>
      let out := worker walkFn rest
      if r = "" then out
      else { results := r :: out.results, err := out.err, leftover := out.leftover }

/-- The aggregate outcome of `FSWalker.Walk`: final counter values and the
error returned by `fs.group.Wait()`. -/
structure WalkOut where
  nPaths : Nat
  nResults : Nat
  err : Option GoErr
deriving DecidableEq

/-- First-error selection of `errgroup`: an already-recorded error is kept,
otherwise the new one is recorded. -/
def recordErr (old new : Option GoErr) : Option GoErr :=
  match old with
  | some e => some e
  | none => new

/-- `FSWalker.Walk` under the schedule in which the producer runs to
completion (or to its aborting error) and a single worker then consumes
every emitted path: `nPaths` counts the emitted paths, `nResults` the
collected results, and the returned error is the first recorded one.  The
claims below use this schedule only when at most one participant fails, so
the producer-first tie-break in `recordErr` is never exercised. -/
def WalkSeq (fs : FSWalker) (matchFn : MatchFn)
    (walkFn : String → Except GoErr String) (visits : List VisitEntry) : WalkOut :=
  let pr := producePaths fs matchFn visits
  let w := worker walkFn pr.1
  { nPaths := pr.1.length, nResults := w.results.length, err := recordErr pr.2 w.err }

/-- The unconditional tail of `Reset` (lines 91–97): fresh channels, fresh
group context, zeroed counters and timers. -/
def FSWalker.resetWith (fs : FSWalker) (c : Ctx) : FSWalker :=
  { fs with
    paths := []
    results := []
    ctx := some (errgroup_WithContext c)
    nPaths := 0
    nResults := 0
    started := 0
    duration := 0 }

/-- `FSWalker.Reset` (lines 81–98).  The result is `none` when the Go code
panics: with a nil `ctx` argument it calls `fs.ctx.Deadline()`, which
dereferences a nil interface when `fs.ctx` was never set. -/
def FSWalker.Reset (fs : FSWalker) (octx : Option Ctx) : Option FSWalker :=
  match octx with
  | some c => some (fs.resetWith c)
  | none =>
    match fs.ctx with
    | none => none
    | some old =>
      let base := context_Background
      let c :=
        match old.deadline with
        | some d => context_WithDeadline base d
        | none => base
      some (fs.resetWith c)

/-- The Go zero value of `FSWalker`: all fields zero, `ctx` a nil
interface. -/
def FSWalker.zero : FSWalker :=
  { Workers := 0, SkipHidden := false, SkipDirs := false, Match := "",
    root := "", paths := [], nPaths := 0, results := [], nResults := 0,
    ctx := none, started := 0, duration := 0 }

/-! ## The directory tree and its depth-first visit sequence -/

/-- A file-system tree.  A `file` carries its base name and whether its mode
bits make it a regular file (`false` models sockets, symlinks, devices); a
`dir` carries its base name and children. -/
inductive FSEntry where
  | file : String → Bool → FSEntry
  | dir : String → List FSEntry → FSEntry

/-- Base name of an entry. -/
def entryName : FSEntry → String
  | FSEntry.file n _ => n
  | FSEntry.dir n _ => n

/-- Path concatenation as performed by `filepath.Walk` when descending into
a directory (`filepath.Join` of the directory path and the child name). -/
def pathJoin (dir name : String) : String := dir ++ "/" ++ name

mutual
/-- The visit sequence `filepath.Walk` produces for the entry rooted at
`path`: the entry itself first, then (for directories) the children in
order.  Traversal always descends into directories, because `filterPaths`
never returns `filepath.SkipDir`. -/
def visitTree (path : String) : FSEntry → List VisitEntry
  | FSEntry.file n reg =>
    [{ err := none, path := path, info := { name := n, isRegular := reg, isDir := false } }]
  | FSEntry.dir n cs =>
    { err := none, path := path, info := { name := n, isRegular := false, isDir := true } } ::
      visitForest path cs

/-- Visit sequence for the children of a directory whose path is
`dirPath`. -/
def visitForest (dirPath : String) : List FSEntry → List VisitEntry
  | [] => []
  | c :: cs => visitTree (pathJoin dirPath (entryName c)) c ++ visitForest dirPath cs
end

/-! ## Basic lemmas about the producer and the visit sequence -/

theorem pathJoin_ne_empty (d n : String) : pathJoin d n ≠ "" := by
  intro h
  have hlen : (pathJoin d n).length = 0 := by rw [h]; rfl
  simp only [pathJoin, String.length_append, Nat.add_eq_zero] at hlen
  exact absurd hlen.1.2 (by decide)

mutual
theorem visitTree_path_ne (p : String) (hp : p ≠ "") (t : FSEntry) :
    ∀ v ∈ visitTree p t, v.path ≠ "" := by
  cases t with
  | file n reg =>
    intro v hv
    simp [visitTree] at hv
    rw [hv]
    exact hp
  | dir n cs =>
    intro v hv
    simp only [visitTree, List.mem_cons] at hv
    cases hv with
    | inl h => rw [h]; exact hp
    | inr h => exact visitForest_path_ne p cs v h

theorem visitForest_path_ne (p : String) (ts : List FSEntry) :
    ∀ v ∈ visitForest p ts, v.path ≠ "" := by
  cases ts with
  | nil => intro v hv; simp [visitForest] at hv
  | cons c cs =>
    intro v hv
    simp only [visitForest, List.mem_append] at hv
    cases hv with
    | inl h => exact visitTree_path_ne _ (pathJoin_ne_empty _ _) c v h
    | inr h => exact visitForest_path_ne p cs v h
end

mutual
theorem visitTree_err_none (p : String) (t : FSEntry) :
    ∀ v ∈ visitTree p t, v.err = none := by
  cases t with
  | file n reg => intro v hv; simp [visitTree] at hv; rw [hv]
  | dir n cs =>
    intro v hv
    simp only [visitTree, List.mem_cons] at hv
    cases hv with
    | inl h => rw [h]
    | inr h => exact visitForest_err_none p cs v h

theorem visitForest_err_none (p : String) (ts : List FSEntry) :
    ∀ v ∈ visitForest p ts, v.err = none := by
  cases ts with
  | nil => intro v hv; simp [visitForest] at hv
  | cons c cs =>
    intro v hv
    simp only [visitForest, List.mem_append] at hv
    cases hv with
    | inl h => exact visitTree_err_none _ c v h
    | inr h => exact visitForest_err_none p cs v h
end

/-! ## C5: filter rule order -/

/-- Verdict of the spec's PathFilter: eligible, not eligible, or a pattern
error. -/
inductive SpecVerdict where
  | eligible : SpecVerdict
  | ineligible : SpecVerdict
  | patError : SpecVerdict
deriving DecidableEq

/-- The PathFilter rule list as the spec states it (section 4.1), applied in
order with the first matching rule winning: (1) not a regular file means not
eligible; (2) with SkipHidden set, a base name beginning with a dot or a
tilde means not eligible; (3) with SkipDirs set, a directory means not
eligible; (4) otherwise the entry is eligible exactly when the base name
glob-matches the configured pattern, a malformed pattern being an error. -/
def specRules (fs : FSWalker) (matchFn : MatchFn) (info : FileInfo) : SpecVerdict :=
  if info.isRegular = false then SpecVerdict.ineligible
  else if fs.SkipHidden = true && (strings_HasPrefix info.name "." || strings_HasPrefix info.name "~") then
    SpecVerdict.ineligible
  else if fs.SkipDirs = true && info.isDir = true then SpecVerdict.ineligible
  else
    match matchFn fs.Match info.name with
    | none => SpecVerdict.patError
    | some b => if b then SpecVerdict.eligible else SpecVerdict.ineligible

theorem filterPaths_eq_specRules (fs : FSWalker) (matchFn : MatchFn)
    (v : VisitEntry) (hv : v.err = none) :
    filterPaths fs matchFn v =
      match specRules fs matchFn v.info with
      | SpecVerdict.eligible => Except.ok true
      | SpecVerdict.ineligible => Except.ok false
      | SpecVerdict.patError => Except.error GoErr.errBadPattern := by
  obtain ⟨verr, vpath, nm, reg, dr⟩ := v
  simp only at hv
  subst hv
  simp only [filterPaths, specRules]
  cases reg <;> cases dr <;> cases hsh : fs.SkipHidden <;> cases hsd : fs.SkipDirs <;>
    cases hst : strings_HasPrefix nm "." <;> cases hst2 : strings_HasPrefix nm "~" <;>
    rcases hm : matchFn fs.Match nm with _ | b
  any_goals cases b
  all_goals simp [hm]

/-- C5: the path filter applies its rules in order with first match winning:
a non-regular entry is never eligible (while traversal still descends into
directories), then the hidden-name rule under SkipHidden, then the
directory rule under SkipDirs, and otherwise eligibility is exactly the
glob match of the base name, a malformed pattern being an error. -/
theorem filter_rules_in_order (fs : FSWalker) (matchFn : MatchFn)
    (v : VisitEntry) (hv : v.err = none) :
    (filterPaths fs matchFn v = Except.ok true ↔
      specRules fs matchFn v.info = SpecVerdict.eligible) ∧
    (filterPaths fs matchFn v = Except.ok false ↔
      specRules fs matchFn v.info = SpecVerdict.ineligible) ∧
    (filterPaths fs matchFn v = Except.error GoErr.errBadPattern ↔
      specRules fs matchFn v.info = SpecVerdict.patError) ∧
    (∀ (p n : String) (cs : List FSEntry),
      visitTree p (FSEntry.dir n cs) =
        { err := none, path := p,
          info := { name := n, isRegular := false, isDir := true } } ::
          visitForest p cs) := by
  have h := filterPaths_eq_specRules fs matchFn v hv
  refine ⟨?_, ?_, ?_, fun p n cs => rfl⟩ <;>
    (rw [h]; cases specRules fs matchFn v.info <;> simp)

/-- A total match function accepting every name (the behavior of the default
pattern `*`). -/
def matchAll : MatchFn := fun _ _ => some true

theorem filter_rules_in_order_witness :
    ({ err := none, path := "/r/a", info := { name := "a", isRegular := true, isDir := false } } :
        VisitEntry).err = none ∧
    ((filterPaths FSWalker.zero matchAll
        { err := none, path := "/r/a", info := { name := "a", isRegular := true, isDir := false } } =
          Except.ok true ↔
      specRules FSWalker.zero matchAll
        { name := "a", isRegular := true, isDir := false } = SpecVerdict.eligible) ∧
    (filterPaths FSWalker.zero matchAll
        { err := none, path := "/r/a", info := { name := "a", isRegular := true, isDir := false } } =
          Except.ok false ↔
      specRules FSWalker.zero matchAll
        { name := "a", isRegular := true, isDir := false } = SpecVerdict.ineligible) ∧
    (filterPaths FSWalker.zero matchAll
        { err := none, path := "/r/a", info := { name := "a", isRegular := true, isDir := false } } =
          Except.error GoErr.errBadPattern ↔
      specRules FSWalker.zero matchAll
        { name := "a", isRegular := true, isDir := false } = SpecVerdict.patError) ∧
    (∀ (p n : String) (cs : List FSEntry),
      visitTree p (FSEntry.dir n cs) =
        { err := none, path := p,
          info := { name := n, isRegular := false, isDir := true } } ::
          visitForest p cs)) :=
  ⟨rfl, filter_rules_in_order FSWalker.zero matchAll
    { err := none, path := "/r/a", info := { name := "a", isRegular := true, isDir := false } }
    rfl⟩

/-! ## C6: empty transform result emits nothing -/

/-- C6: when the transform returns an empty string with a nil error for a
path, the worker emits nothing for it and continues with the remaining
paths: the results it sends and the error it returns are the same as if
that path had not been in its queue. -/
theorem empty_result_emits_nothing (walkFn : String → Except GoErr String)
    (xs ys : List String) (p : String) (hp : walkFn p = Except.ok "") :
    (worker walkFn (xs ++ p :: ys)).results = (worker walkFn (xs ++ ys)).results ∧
    (worker walkFn (xs ++ p :: ys)).err = (worker walkFn (xs ++ ys)).err := by
  induction xs with
  | nil => simp [worker, hp]
  | cons x xs ih =>
    simp only [List.cons_append, worker, List.append_eq]
    cases hx : walkFn x with
    | error e => exact ⟨rfl, rfl⟩
    | ok r =>
      by_cases hr : r = ""
      · simpa [hr] using ih
      · simp only [if_neg hr]
        refine ⟨?_, ?_⟩
        · have h1 := ih.1
          simp only [List.append_eq] at h1 ⊢
          rw [h1]
        · have h2 := ih.2
          simp only [List.append_eq] at h2 ⊢
          rw [h2]

/-- A transform that skips the path named `skip-me` and otherwise echoes the
path. -/
def echoOrSkip : String → Except GoErr String :=
  fun q => if q = "skip-me" then Except.ok "" else Except.ok q

theorem empty_result_emits_nothing_witness :
    (worker echoOrSkip (["a"] ++ "skip-me" :: ["b"])).results =
      (worker echoOrSkip (["a"] ++ ["b"])).results ∧
    (worker echoOrSkip (["a"] ++ "skip-me" :: ["b"])).err =
      (worker echoOrSkip (["a"] ++ ["b"])).err :=
  empty_result_emits_nothing echoOrSkip ["a"] ["b"] "skip-me" rfl

/-! ## C7 and C10: Reset -/

/-- C7: Reset reallocates both channels and zeroes nPaths, nResults,
started and duration, leaves the configuration fields Workers, SkipHidden,
SkipDirs and Match unchanged, and, when called with a nil context while a
context was previously set, derives a fresh context carrying the previous
context's deadline. -/
theorem reset_frame (fs : FSWalker) (octx : Option Ctx)
    (h : octx = none → fs.ctx ≠ none) :
    ∃ fs', fs.Reset octx = some fs' ∧
      fs'.Workers = fs.Workers ∧ fs'.SkipHidden = fs.SkipHidden ∧
      fs'.SkipDirs = fs.SkipDirs ∧ fs'.Match = fs.Match ∧
      fs'.paths = [] ∧ fs'.results = [] ∧ fs'.nPaths = 0 ∧ fs'.nResults = 0 ∧
      fs'.started = 0 ∧ fs'.duration = 0 ∧
      (octx = none → ∀ old, fs.ctx = some old →
        fs'.ctx = some { deadline := old.deadline }) := by
  cases octx with
  | some c =>
    refine ⟨fs.resetWith c, rfl, rfl, rfl, rfl, rfl, rfl, rfl, rfl, rfl, rfl, rfl, ?_⟩
    intro hnone
    exact absurd hnone (by simp)
  | none =>
    cases hc : fs.ctx with
    | none => exact absurd hc (h rfl)
    | some old =>
      cases hd : old.deadline with
      | none =>
        refine ⟨fs.resetWith context_Background, ?_, rfl, rfl, rfl, rfl, rfl, rfl,
          rfl, rfl, rfl, rfl, ?_⟩
        · simp [FSWalker.Reset, hc, hd]
        · intro _ old' hold'
          have heq : old = old' := Option.some.inj hold'
          subst heq
          simp [FSWalker.resetWith, errgroup_WithContext, context_Background, hd]
      | some d =>
        refine ⟨fs.resetWith (context_WithDeadline context_Background d), ?_, rfl, rfl,
          rfl, rfl, rfl, rfl, rfl, rfl, rfl, rfl, ?_⟩
        · simp [FSWalker.Reset, hc, hd]
        · intro _ old' hold'
          have heq : old = old' := Option.some.inj hold'
          subst heq
          simp [FSWalker.resetWith, errgroup_WithContext, context_WithDeadline, hd]

/-- A walker mid-walk, with a deadline-carrying context, used to exercise
`Reset nil`. -/
def busyWalker : FSWalker :=
  { Workers := 7, SkipHidden := true, SkipDirs := true, Match := "*.go",
    root := "/r", paths := ["/r/a"], nPaths := 4, results := ["/r/a"],
    nResults := 2, ctx := some { deadline := some 42 }, started := 9,
    duration := 3 }

theorem reset_frame_witness :
    ((none : Option Ctx) = none → busyWalker.ctx ≠ none) ∧
    (∃ fs', busyWalker.Reset none = some fs' ∧
      fs'.Workers = busyWalker.Workers ∧ fs'.SkipHidden = busyWalker.SkipHidden ∧
      fs'.SkipDirs = busyWalker.SkipDirs ∧ fs'.Match = busyWalker.Match ∧
      fs'.paths = [] ∧ fs'.results = [] ∧ fs'.nPaths = 0 ∧ fs'.nResults = 0 ∧
      fs'.started = 0 ∧ fs'.duration = 0 ∧
      ((none : Option Ctx) = none → ∀ old, busyWalker.ctx = some old →
        fs'.ctx = some { deadline := old.deadline })) :=
  ⟨fun _ => by simp [busyWalker], reset_frame busyWalker none (fun _ => by simp [busyWalker])⟩

/-- C10: on a zero-value FSWalker (internal context never set), Reset with a
nil context dereferences a nil context and panics rather than returning an
error; in general `Reset nil` panics exactly when the internal context is
nil. -/
theorem reset_nil_on_zero_walker_panics :
    FSWalker.zero.ctx = none ∧
    FSWalker.zero.Reset none = none ∧
    (∀ fs : FSWalker, fs.Reset none = none ↔ fs.ctx = none) := by
  refine ⟨rfl, rfl, fun fs => ?_⟩
  cases hc : fs.ctx with
  | none => simp [FSWalker.Reset, hc]
  | some old => cases old.deadline <;> simp [FSWalker.Reset, hc]

/-! ## C3: a transform error stops the worker and is fatal -/

theorem worker_stops_at_error (walkFn : String → Except GoErr String)
    (pre rest : List String) (p : String) (e : GoErr)
    (hpre : ∀ q ∈ pre, ∃ r, walkFn q = Except.ok r)
    (hp : walkFn p = Except.error e) :
    (worker walkFn (pre ++ p :: rest)).err = some e ∧
    (worker walkFn (pre ++ p :: rest)).leftover = rest := by
  induction pre with
  | nil => simp [worker, hp]
  | cons q pre ih =>
    obtain ⟨r, hr⟩ := hpre q (List.mem_cons_self q pre)
    have ih' := ih (fun q' hq' => hpre q' (List.mem_cons_of_mem q hq'))
    simp only [List.cons_append, worker, hr]
    by_cases hrE : r = ""
    · simpa [hrE] using ih'
    · simp only [if_neg hrE]
      exact ih'

/-- C3: when the transform returns an error for some path, the worker that
received that path stops consuming further paths (the remaining queue is
left untouched) and returns that error, and the walk returns it: assuming
traversal itself succeeded and the paths the worker processed earlier did
not fail, `Walk` surfaces exactly the transform's error. -/
theorem transform_error_fatal (fs : FSWalker) (matchFn : MatchFn)
    (walkFn : String → Except GoErr String) (visits : List VisitEntry)
    (pre rest : List String) (p : String) (e : GoErr)
    (hprod : producePaths fs matchFn visits = (pre ++ p :: rest, none))
    (hpre : ∀ q ∈ pre, ∃ r, walkFn q = Except.ok r)
    (hp : walkFn p = Except.error e) :
    (worker walkFn (pre ++ p :: rest)).err = some e ∧
    (worker walkFn (pre ++ p :: rest)).leftover = rest ∧
    (WalkSeq fs matchFn walkFn visits).err = some e := by
  obtain ⟨h1, h2⟩ := worker_stops_at_error walkFn pre rest p e hpre hp
  refine ⟨h1, h2, ?_⟩
  simp [WalkSeq, hprod, h1, recordErr]

/-- A transform that fails on every path. -/
def failFn : String → Except GoErr String :=
  fun _ => Except.error (GoErr.transformErr "boom")

theorem transform_error_fatal_witness :
    producePaths FSWalker.zero matchAll
        [{ err := none, path := "/r/a",
           info := { name := "a", isRegular := true, isDir := false } }] =
      ([] ++ "/r/a" :: [], none) ∧
    ((worker failFn ([] ++ "/r/a" :: [])).err = some (GoErr.transformErr "boom") ∧
     (worker failFn ([] ++ "/r/a" :: [])).leftover = [] ∧
     (WalkSeq FSWalker.zero matchAll failFn
        [{ err := none, path := "/r/a",
           info := { name := "a", isRegular := true, isDir := false } }]).err =
       some (GoErr.transformErr "boom")) :=
  ⟨rfl, transform_error_fatal FSWalker.zero matchAll failFn _ [] [] "/r/a"
    (GoErr.transformErr "boom") rfl (by simp) rfl⟩

/-! ## C4: a malformed pattern error is surfaced at matching time -/

/-- Whether an entry reaches the `filepath.Match` call in `filterPaths`: it
carries no traversal error, it is a regular file, and it is not discarded by
the SkipHidden or SkipDirs rules. -/
def reachesPattern (fs : FSWalker) (v : VisitEntry) : Bool :=
  v.info.isRegular &&
    !(fs.SkipHidden && (strings_HasPrefix v.info.name "." || strings_HasPrefix v.info.name "~")) &&
    !(fs.SkipDirs && v.info.isDir)

theorem filterPaths_not_reaching (fs : FSWalker) (matchFn : MatchFn)
    (v : VisitEntry) (hv : v.err = none) (hnr : reachesPattern fs v = false) :
    filterPaths fs matchFn v = Except.ok false := by
  obtain ⟨verr, vpath, nm, reg, dr⟩ := v
  simp only at hv
  subst hv
  simp only [filterPaths, reachesPattern] at hnr ⊢
  cases reg <;> cases dr <;> cases hsh : fs.SkipHidden <;> cases hsd : fs.SkipDirs <;>
    cases hst : strings_HasPrefix nm "." <;> cases hst2 : strings_HasPrefix nm "~" <;> simp_all

theorem filterPaths_reaching_badPattern (fs : FSWalker) (matchFn : MatchFn)
    (v : VisitEntry) (hv : v.err = none) (hr : reachesPattern fs v = true)
    (hm : matchFn fs.Match v.info.name = none) :
    filterPaths fs matchFn v = Except.error GoErr.errBadPattern := by
  obtain ⟨verr, vpath, nm, reg, dr⟩ := v
  simp only at hv hm
  subst hv
  simp only [filterPaths, reachesPattern] at hr ⊢
  cases reg <;> cases dr <;> cases hsh : fs.SkipHidden <;> cases hsd : fs.SkipDirs <;>
    cases hst : strings_HasPrefix nm "." <;> cases hst2 : strings_HasPrefix nm "~" <;> simp_all

theorem producePaths_badPattern (fs : FSWalker) (matchFn : MatchFn)
    (pre rest : List VisitEntry) (v : VisitEntry)
    (hpre : ∀ u ∈ pre, u.err = none ∧ reachesPattern fs u = false)
    (hv : v.err = none) (hreach : reachesPattern fs v = true)
    (hm : matchFn fs.Match v.info.name = none) :
    producePaths fs matchFn (pre ++ v :: rest) = ([], some GoErr.errBadPattern) := by
  induction pre with
  | nil =>
    simp only [List.nil_append, producePaths,
      filterPaths_reaching_badPattern fs matchFn v hv hreach hm]
  | cons u pre ih =>
    obtain ⟨hu1, hu2⟩ := hpre u (List.mem_cons_self u pre)
    have ih' := ih (fun u' hu' => hpre u' (List.mem_cons_of_mem u hu'))
    simp only [List.cons_append, producePaths,
      filterPaths_not_reaching fs matchFn u hu1 hu2]
    exact ih'

/-- C4: with a malformed glob pattern (one on which `filepath.Match` reports
`ErrBadPattern` for every name), the error surfaces at matching time: the
first eligible-candidate regular file that reaches the pattern check makes
the producer return the pattern error, no path is emitted or counted, and
`Walk` returns the pattern error. -/
theorem bad_pattern_aborts_walk (fs : FSWalker) (matchFn : MatchFn)
    (walkFn : String → Except GoErr String)
    (pre rest : List VisitEntry) (v : VisitEntry)
    (hm : ∀ name, matchFn fs.Match name = none)
    (hpre : ∀ u ∈ pre, u.err = none ∧ reachesPattern fs u = false)
    (hv : v.err = none) (hreach : reachesPattern fs v = true) :
    producePaths fs matchFn (pre ++ v :: rest) = ([], some GoErr.errBadPattern) ∧
    (WalkSeq fs matchFn walkFn (pre ++ v :: rest)).err = some GoErr.errBadPattern ∧
    (WalkSeq fs matchFn walkFn (pre ++ v :: rest)).nPaths = 0 := by
  have hp := producePaths_badPattern fs matchFn pre rest v hpre hv hreach (hm v.info.name)
  refine ⟨hp, ?_, ?_⟩ <;> simp [WalkSeq, hp, worker, recordErr]

/-- A match function on which every name reports a malformed pattern, the
behavior of `filepath.Match` on a pattern such as an unterminated character
class. -/
def matchNone : MatchFn := fun _ _ => none

/-- The identity transform: returns the path itself with no error. -/
def idWalkFn : String → Except GoErr String := fun p => Except.ok p

theorem bad_pattern_aborts_walk_witness :
    (∀ u ∈ [({ err := none, path := "/r",
               info := { name := "r", isRegular := false, isDir := true } } : VisitEntry)],
      u.err = none ∧ reachesPattern FSWalker.zero u = false) ∧
    ({ err := none, path := "/r/a",
       info := { name := "a", isRegular := true, isDir := false } } : VisitEntry).err = none ∧
    reachesPattern FSWalker.zero
      { err := none, path := "/r/a",
        info := { name := "a", isRegular := true, isDir := false } } = true ∧
    (producePaths FSWalker.zero matchNone
        ([{ err := none, path := "/r",
            info := { name := "r", isRegular := false, isDir := true } }] ++
          { err := none, path := "/r/a",
            info := { name := "a", isRegular := true, isDir := false } } :: []) =
      ([], some GoErr.errBadPattern) ∧
    (WalkSeq FSWalker.zero matchNone idWalkFn
        ([{ err := none, path := "/r",
            info := { name := "r", isRegular := false, isDir := true } }] ++
          { err := none, path := "/r/a",
            info := { name := "a", isRegular := true, isDir := false } } :: [])).err =
      some GoErr.errBadPattern ∧
    (WalkSeq FSWalker.zero matchNone idWalkFn
        ([{ err := none, path := "/r",
            info := { name := "r", isRegular := false, isDir := true } }] ++
          { err := none, path := "/r/a",
            info := { name := "a", isRegular := true, isDir := false } } :: [])).nPaths = 0) :=
  ⟨by decide, rfl, rfl,
    bad_pattern_aborts_walk FSWalker.zero matchNone idWalkFn _ _ _
      (fun _ => rfl) (by decide) rfl rfl⟩

/-! ## C9: CopyFile atomicity (`fsutil.go` lines 40–65) -/

/-- Contents and permission bits of one file on disk. -/
structure GoFile where
  content : List Nat
  perm : Nat
deriving DecidableEq

/-- A file system fragment: the file stored at each path, if any. -/
def FS : Type := String → Option GoFile

/-- Create or overwrite the file at `p`. -/
def FS.write (fs : FS) (p : String) (f : GoFile) : FS :=
  fun q => if q = p then some f else fs q

/-- Model of `os.Remove p`. -/
def FS.remove (fs : FS) (p : String) : FS :=
  fun q => if q = p then none else fs q

/-- Model of `os.Rename a b`: the file at `a` is now at `b`. -/
def FS.rename (fs : FS) (a b : String) : FS :=
  fun q => if q = b then fs a else if q = a then none else fs q

/-- The error returned by each fallible step of `CopyFile`. -/
inductive CopyErr where
  | openFail : CopyErr
  | tempFail : CopyErr
  | copyFail : CopyErr
  | closeFail : CopyErr
  | chmodFail : CopyErr
  | renameFail : CopyErr
deriving DecidableEq

/-- The environment `CopyFile` runs in: the fresh name `ioutil.TempFile`
picks, and which of the I/O calls fail (beyond `os.Open` failing when the
source is absent). -/
structure CopyEnv where
  tmpName : String
  openFails : Bool
  tempFails : Bool
  copyFails : Bool
  closeFails : Bool
  chmodFails : Bool
  renameFails : Bool
deriving DecidableEq

/-- `CopyFile dst src perm` of `fsutil.go`: open the source, create a
temporary file next to `dst`, copy into it, close it, chmod it, and rename
it onto `dst`; on a failure of copy, close or chmod the temporary file is
removed and the error returned; on an open or temp-creation failure nothing
was written yet.  (`os.Remove` after a failed `os.Rename` does not happen
in the source, so the rename branch keeps the temporary file.) -/
def CopyFile (env : CopyEnv) (fs : FS) (dst src : String) (perm : Nat) :
    FS × Option CopyErr :=
  match fs src with
  | none => (fs, some CopyErr.openFail)
  | some srcFile =>
    if env.openFails then (fs, some CopyErr.openFail)
    else if env.tempFails then (fs, some CopyErr.tempFail)
    else
      let fs1 := fs.write env.tmpName { content := [], perm := 0o600 }
      if env.copyFails then (fs1.remove env.tmpName, some CopyErr.copyFail)
      else
        let fs2 := fs1.write env.tmpName { content := srcFile.content, perm := 0o600 }
        if env.closeFails then (fs2.remove env.tmpName, some CopyErr.closeFail)
        else if env.chmodFails then (fs2.remove env.tmpName, some CopyErr.chmodFail)
        else
          let fs3 := fs2.write env.tmpName { content := srcFile.content, perm := perm }
          if env.renameFails then (fs3, some CopyErr.renameFail)
          else (fs3.rename env.tmpName dst, none)

/-- C9: CopyFile is atomic with respect to the destination: when any of the
open, temp-creation, copy, close or chmod steps fails, the step's error is
returned, the destination's prior content is unchanged and the temporary
file is gone; the destination is replaced, by renaming the fully written
temporary file, only when every step succeeded, and it then holds the
source's content with the requested permissions. -/
theorem copyFile_atomic (env : CopyEnv) (fs : FS) (dst src : String) (perm : Nat)
    (hfresh : fs env.tmpName = none) (hne : dst ≠ env.tmpName) :
    (∀ e, (CopyFile env fs dst src perm).2 = some e → e ≠ CopyErr.renameFail →
       (CopyFile env fs dst src perm).1 dst = fs dst ∧
       (CopyFile env fs dst src perm).1 env.tmpName = none) ∧
    ((CopyFile env fs dst src perm).2 = none →
       ∃ srcFile, fs src = some srcFile ∧
         (CopyFile env fs dst src perm).1 dst =
           some { content := srcFile.content, perm := perm }) ∧
    ((CopyFile env fs dst src perm).1 dst ≠ fs dst →
       (CopyFile env fs dst src perm).2 = none) := by
  obtain ⟨tn, o1, o2, o3, o4, o5, o6⟩ := env
  simp only at hfresh hne
  cases hsrc : fs src with
  | none => simp [CopyFile, hsrc, hfresh]
  | some srcFile =>
    cases o1 <;> cases o2 <;> cases o3 <;> cases o4 <;> cases o5 <;> cases o6 <;>
      simp [CopyFile, hsrc, hfresh, hne, FS.write, FS.remove, FS.rename]

/-- A one-file fragment: a source file at `/d/s`. -/
def fsC9 : FS :=
  fun q => if q = "/d/s" then some { content := [1, 2], perm := 420 } else none

/-- A run in which `io.Copy` fails. -/
def envC9 : CopyEnv :=
  { tmpName := "/d/tmp123", openFails := false, tempFails := false,
    copyFails := true, closeFails := false, chmodFails := false,
    renameFails := false }

theorem copyFile_atomic_witness :
    fsC9 envC9.tmpName = none ∧ "/d/d" ≠ envC9.tmpName ∧
    ((∀ e, (CopyFile envC9 fsC9 "/d/d" "/d/s" 420).2 = some e → e ≠ CopyErr.renameFail →
       (CopyFile envC9 fsC9 "/d/d" "/d/s" 420).1 "/d/d" = fsC9 "/d/d" ∧
       (CopyFile envC9 fsC9 "/d/d" "/d/s" 420).1 envC9.tmpName = none) ∧
    ((CopyFile envC9 fsC9 "/d/d" "/d/s" 420).2 = none →
       ∃ srcFile, fsC9 "/d/s" = some srcFile ∧
         (CopyFile envC9 fsC9 "/d/d" "/d/s" 420).1 "/d/d" =
           some { content := srcFile.content, perm := 420 }) ∧
    ((CopyFile envC9 fsC9 "/d/d" "/d/s" 420).1 "/d/d" ≠ fsC9 "/d/d" →
       (CopyFile envC9 fsC9 "/d/d" "/d/s" 420).2 = none)) :=
  ⟨rfl, by decide, copyFile_atomic envC9 fsC9 "/d/d" "/d/s" 420 rfl (by decide)⟩

/-! ## C1: identity transform makes the counters equal the eligible count -/

/-- `DefaultWorkers` of `urfs.go`. -/
def DefaultWorkers : Nat := 5000

/-- `FSWalker.Init`: set the default configuration (worker pool size,
hidden and directory skipping, match-all pattern) and reset. -/
def FSWalker.Init (fs : FSWalker) (octx : Option Ctx) : Option FSWalker :=
  FSWalker.Reset
    { fs with
      Workers := DefaultWorkers
      SkipHidden := true
      SkipDirs := true
      Match := "*" }
    octx

theorem filterPaths_ok_of_total (fs : FSWalker) (matchFn : MatchFn) (v : VisitEntry)
    (hv : v.err = none) (hm : matchFn fs.Match v.info.name ≠ none) :
    ∃ b, filterPaths fs matchFn v = Except.ok b := by
  obtain ⟨verr, vpath, nm, reg, dr⟩ := v
  simp only at hv hm
  subst hv
  simp only [filterPaths]
  cases reg <;> cases dr <;> cases hsh : fs.SkipHidden <;> cases hsd : fs.SkipDirs <;>
    cases hst : strings_HasPrefix nm "." <;> cases hst2 : strings_HasPrefix nm "~" <;>
    rcases hmm : matchFn fs.Match nm with _ | b <;>
    first
      | exact absurd hmm hm
      | exact ⟨_, rfl⟩

theorem producePaths_total (fs : FSWalker) (matchFn : MatchFn) (visits : List VisitEntry)
    (hv : ∀ v ∈ visits, v.err = none)
    (hm : ∀ name, matchFn fs.Match name ≠ none) :
    producePaths fs matchFn visits =
      ((visits.filter (isEligible fs matchFn)).map VisitEntry.path, none) := by
  induction visits with
  | nil => rfl
  | cons v rest ih =>
    obtain ⟨b, hb⟩ := filterPaths_ok_of_total fs matchFn v (hv v (by simp)) (hm _)
    have ih' := ih (fun u hu => hv u (List.mem_cons_of_mem v hu))
    cases b with
    | true =>
      have he : isEligible fs matchFn v = true := by simp [isEligible, hb]
      simp [producePaths, hb, ih', List.filter_cons, he]
    | false =>
      have he : isEligible fs matchFn v = false := by simp [isEligible, hb]
      simp [producePaths, hb, ih', List.filter_cons, he]

theorem producePaths_mem (fs : FSWalker) (matchFn : MatchFn) (visits : List VisitEntry) :
    ∀ p ∈ (producePaths fs matchFn visits).1, ∃ v ∈ visits, v.path = p := by
  induction visits with
  | nil => simp [producePaths]
  | cons v rest ih =>
    intro p hp
    cases hb : filterPaths fs matchFn v with
    | error e => simp [producePaths, hb] at hp
    | ok b =>
      cases b with
      | true =>
        simp only [producePaths, hb] at hp
        rcases List.mem_cons.mp hp with hp | hp
        · exact ⟨v, List.mem_cons_self v rest, hp.symm⟩
        · obtain ⟨u, hu, hup⟩ := ih p hp
          exact ⟨u, List.mem_cons_of_mem v hu, hup⟩
      | false =>
        simp only [producePaths, hb] at hp
        obtain ⟨u, hu, hup⟩ := ih p hp
        exact ⟨u, List.mem_cons_of_mem v hu, hup⟩

theorem worker_ok_results (walkFn : String → Except GoErr String)
    (paths : List String)
    (hw : ∀ p ∈ paths, walkFn p = Except.ok p) (hp : ∀ p ∈ paths, p ≠ "") :
    (worker walkFn paths).results = paths ∧ (worker walkFn paths).err = none := by
  induction paths with
  | nil => exact ⟨rfl, rfl⟩
  | cons p rest ih =>
    have hwp := hw p (List.mem_cons_self p rest)
    have hpp := hp p (List.mem_cons_self p rest)
    have ih' := ih (fun q hq => hw q (List.mem_cons_of_mem p hq))
      (fun q hq => hp q (List.mem_cons_of_mem p hq))
    simp [worker, hwp, hpp, ih'.1, ih'.2]

/-- C1: walking any tree with a transform that returns the path and no
error, under any filter configuration whose pattern `filepath.Match`
accepts without error, emits no producer error, no worker ever fails, and
however the emitted paths are distributed over the worker pool the total
number of results collected equals the number of paths counted, which
equals the number of entries in the tree satisfying the path filter. -/
theorem walk_identity_counts (fs : FSWalker) (matchFn : MatchFn) (root : String)
    (t : FSEntry) (hroot : root ≠ "")
    (hm : ∀ name, matchFn fs.Match name ≠ none)
    (parts : List (List String))
    (hparts : parts.flatten.Perm (producePaths fs matchFn (visitTree root t)).1) :
    (producePaths fs matchFn (visitTree root t)).2 = none ∧
    (∀ q ∈ parts, (worker idWalkFn q).err = none) ∧
    (parts.map (fun q => (worker idWalkFn q).results.length)).sum =
      (producePaths fs matchFn (visitTree root t)).1.length ∧
    (producePaths fs matchFn (visitTree root t)).1.length =
      eligibleCount fs matchFn (visitTree root t) := by
  have hv := visitTree_err_none root t
  have htotal := producePaths_total fs matchFn (visitTree root t) hv hm
  have hnonempty : ∀ p ∈ (producePaths fs matchFn (visitTree root t)).1, p ≠ "" := by
    intro p hp
    obtain ⟨u, hu, hup⟩ := producePaths_mem fs matchFn (visitTree root t) p hp
    rw [← hup]
    exact visitTree_path_ne root hroot t u hu
  have hworker : ∀ q ∈ parts, (worker idWalkFn q).results = q ∧
      (worker idWalkFn q).err = none := by
    intro q hq
    refine worker_ok_results idWalkFn q (fun p _ => rfl) ?_
    intro p hpq
    exact hnonempty p (hparts.mem_iff.mp (List.mem_flatten.mpr ⟨q, hq, hpq⟩))
  refine ⟨by rw [htotal], fun q hq => (hworker q hq).2, ?_, ?_⟩
  · have hmap : parts.map (fun q => (worker idWalkFn q).results.length) =
        parts.map List.length :=
      List.map_congr_left (fun q hq => by rw [(hworker q hq).1])
    rw [hmap, ← List.length_flatten, hparts.length_eq]
  · rw [htotal]
    simp [eligibleCount]

/-- A default-configured walker obtained through `Init`. -/
def initWalker : FSWalker :=
  (FSWalker.Init FSWalker.zero (some context_Background)).getD FSWalker.zero

/-- A small tree: a visible file, a hidden file and a subdirectory holding
another visible file. -/
def sampleTree : FSEntry :=
  FSEntry.dir "r"
    [FSEntry.file "a" true, FSEntry.file ".h" true,
     FSEntry.dir "sub" [FSEntry.file "b" true]]

theorem walk_identity_counts_witness :
    ("/r" : String) ≠ "" ∧
    (∀ name, matchAll initWalker.Match name ≠ none) ∧
    ([["/r/a"], ["/r/sub/b"]] : List (List String)).flatten.Perm
      (producePaths initWalker matchAll (visitTree "/r" sampleTree)).1 ∧
    ((producePaths initWalker matchAll (visitTree "/r" sampleTree)).2 = none ∧
    (∀ q ∈ ([["/r/a"], ["/r/sub/b"]] : List (List String)),
      (worker idWalkFn q).err = none) ∧
    (([["/r/a"], ["/r/sub/b"]] : List (List String)).map
        (fun q => (worker idWalkFn q).results.length)).sum =
      (producePaths initWalker matchAll (visitTree "/r" sampleTree)).1.length ∧
    (producePaths initWalker matchAll (visitTree "/r" sampleTree)).1.length =
      eligibleCount initWalker matchAll (visitTree "/r" sampleTree)) :=
  ⟨by decide, fun name => by simp [matchAll], by decide,
    walk_identity_counts initWalker matchAll "/r" sampleTree (by decide)
      (fun name => by simp [matchAll]) [["/r/a"], ["/r/sub/b"]] (by decide)⟩

/-! ## Small-step model of one Walk: producer, workers, collector under the
shared errgroup context (for the in-flight invariant C2 and the error
policy C8) -/

/-- In-flight state of one `Walk`: the producer's remaining visit sequence,
the paths channel content and whether it is closed, the results channel
content, the two counters, and the first error the errgroup recorded (a
`some` value also means the shared context has been cancelled). -/
structure SysState where
  toVisit : List VisitEntry
  pathChan : List String
  pathsClosed : Bool
  resChan : List String
  nPaths : Nat
  nResults : Nat
  err : Option GoErr
deriving DecidableEq

/-- The interleaved execution of `Walk`.  The producer filters the next
entry and, on success, increments `nPaths` and then sends the path (the
send races cancellation: when the context is already cancelled the producer
may instead return `ctx.Err`, which the errgroup discards, after the
counter was already incremented); a filter error aborts the traversal and
is recorded; finishing closes the paths channel.  A worker takes a path and
applies the transform: an error is recorded and stops that worker, a
non-empty result is sent (or, racing a cancelled context, dropped with the
worker returning the discarded `ctx.Err`), an empty result emits nothing.
The collector takes one result and increments `nResults`. -/
inductive Step (fs : FSWalker) (matchFn : MatchFn)
    (walkFn : String → Except GoErr String) : SysState → SysState → Prop where
  | produceEmit : ∀ v rest pc rc np nr e,
      filterPaths fs matchFn v = Except.ok true →
      Step fs matchFn walkFn ⟨v :: rest, pc, false, rc, np, nr, e⟩
        ⟨rest, pc ++ [v.path], false, rc, np + 1, nr, e⟩
  | produceEmitCancelled : ∀ v rest pc rc np nr x,
      filterPaths fs matchFn v = Except.ok true →
      Step fs matchFn walkFn ⟨v :: rest, pc, false, rc, np, nr, some x⟩
        ⟨[], pc, true, rc, np + 1, nr, some x⟩
  | produceSkip : ∀ v rest pc rc np nr e,
      filterPaths fs matchFn v = Except.ok false →
      Step fs matchFn walkFn ⟨v :: rest, pc, false, rc, np, nr, e⟩
        ⟨rest, pc, false, rc, np, nr, e⟩
  | produceFail : ∀ v rest pc rc np nr e er,
      filterPaths fs matchFn v = Except.error er →
      Step fs matchFn walkFn ⟨v :: rest, pc, false, rc, np, nr, e⟩
        ⟨[], pc, true, rc, np, nr, recordErr e (some er)⟩
  | produceClose : ∀ pc rc np nr e,
      Step fs matchFn walkFn ⟨[], pc, false, rc, np, nr, e⟩
        ⟨[], pc, true, rc, np, nr, e⟩
  | workerTakeOk : ∀ tv p pc cl rc np nr e r,
      walkFn p = Except.ok r → r ≠ "" →
      Step fs matchFn walkFn ⟨tv, p :: pc, cl, rc, np, nr, e⟩
        ⟨tv, pc, cl, rc ++ [r], np, nr, e⟩
  | workerTakeEmpty : ∀ tv p pc cl rc np nr e,
      walkFn p = Except.ok "" →
      Step fs matchFn walkFn ⟨tv, p :: pc, cl, rc, np, nr, e⟩
        ⟨tv, pc, cl, rc, np, nr, e⟩
  | workerTakeFail : ∀ tv p pc cl rc np nr e er,
      walkFn p = Except.error er →
      Step fs matchFn walkFn ⟨tv, p :: pc, cl, rc, np, nr, e⟩
        ⟨tv, pc, cl, rc, np, nr, recordErr e (some er)⟩
  | workerSendCancelled : ∀ tv p pc cl rc np nr x r,
      walkFn p = Except.ok r → r ≠ "" →
      Step fs matchFn walkFn ⟨tv, p :: pc, cl, rc, np, nr, some x⟩
        ⟨tv, pc, cl, rc, np, nr, some x⟩
  | collect : ∀ tv pc cl r rc np nr e,
      Step fs matchFn walkFn ⟨tv, pc, cl, r :: rc, np, nr, e⟩
        ⟨tv, pc, cl, rc, np, nr + 1, e⟩

/-- The state at the start of `Walk` over a given visit sequence. -/
def initState (visits : List VisitEntry) : SysState :=
  ⟨visits, [], false, [], 0, 0, none⟩

/-- All participants have stopped: nothing left to visit, the paths channel
closed and drained, the results channel drained. -/
def Terminal (s : SysState) : Prop :=
  s.toVisit = [] ∧ s.pathsClosed = true ∧ s.pathChan = [] ∧ s.resChan = []

/-- What `Walk` hands the caller once the group has been waited on: the
recorded first error. -/
def walkReturn (s : SysState) : Option GoErr := s.err

theorem step_counter_inv {fs : FSWalker} {matchFn : MatchFn}
    {walkFn : String → Except GoErr String} {s t : SysState}
    (hst : Step fs matchFn walkFn s t)
    (h : s.nResults + s.resChan.length + s.pathChan.length ≤ s.nPaths) :
    t.nResults + t.resChan.length + t.pathChan.length ≤ t.nPaths := by
  cases hst <;> simp_all <;> omega

/-- C2: at every point during and after a walk (any reachable state of the
interleaved execution, any tree, filter configuration and transform), the
result counter is at most the path counter. -/
theorem nResults_le_nPaths (fs : FSWalker) (matchFn : MatchFn)
    (walkFn : String → Except GoErr String) (visits : List VisitEntry)
    (s : SysState)
    (h : Relation.ReflTransGen (Step fs matchFn walkFn) (initState visits) s) :
    s.nResults ≤ s.nPaths := by
  have hinv : s.nResults + s.resChan.length + s.pathChan.length ≤ s.nPaths := by
    induction h with
    | refl => simp [initState]
    | tail _ hstep ih => exact step_counter_inv hstep ih
  omega

theorem nResults_le_nPaths_witness :
    Relation.ReflTransGen (Step FSWalker.zero matchAll idWalkFn)
      (initState [{ err := none, path := "/r/a",
                    info := { name := "a", isRegular := true, isDir := false } }])
      ⟨[], ["/r/a"], false, [], 1, 0, none⟩ ∧
    (⟨[], ["/r/a"], false, [], 1, 0, none⟩ : SysState).nResults ≤
      (⟨[], ["/r/a"], false, [], 1, 0, none⟩ : SysState).nPaths := by
  have hstep : Relation.ReflTransGen (Step FSWalker.zero matchAll idWalkFn)
      (initState [{ err := none, path := "/r/a",
                    info := { name := "a", isRegular := true, isDir := false } }])
      ⟨[], ["/r/a"], false, [], 1, 0, none⟩ :=
    Relation.ReflTransGen.single
      (Step.produceEmit _ [] [] [] 0 0 none rfl)
  exact ⟨hstep, nResults_le_nPaths FSWalker.zero matchAll idWalkFn _ _ hstep⟩

theorem step_err_stable {fs : FSWalker} {matchFn : MatchFn}
    {walkFn : String → Except GoErr String} {s t : SysState} {x : GoErr}
    (h : Step fs matchFn walkFn s t) (hx : s.err = some x) :
    t.err = some x := by
  cases h <;> simp_all [recordErr]

theorem reach_err_stable {fs : FSWalker} {matchFn : MatchFn}
    {walkFn : String → Except GoErr String} {s t : SysState} {x : GoErr}
    (h : Relation.ReflTransGen (Step fs matchFn walkFn) s t)
    (hx : s.err = some x) : t.err = some x := by
  induction h with
  | refl => exact hx
  | tail _ hstep ih => exact step_err_stable hstep ih

theorem closed_toVisit_nil {fs : FSWalker} {matchFn : MatchFn}
    {walkFn : String → Except GoErr String} {visits : List VisitEntry}
    {s : SysState}
    (h : Relation.ReflTransGen (Step fs matchFn walkFn) (initState visits) s) :
    s.pathsClosed = true → s.toVisit = [] := by
  induction h with
  | refl => intro hcl; simp [initState] at hcl
  | tail _ hstep ih => cases hstep <;> simp_all

theorem close_producer (fs : FSWalker) (matchFn : MatchFn)
    (walkFn : String → Except GoErr String) (x : GoErr) :
    ∀ (tv : List VisitEntry) (pc : List String) (rc : List String) (np nr : Nat),
      ∃ np', Relation.ReflTransGen (Step fs matchFn walkFn)
        ⟨tv, pc, false, rc, np, nr, some x⟩ ⟨[], pc, true, rc, np', nr, some x⟩ := by
  intro tv
  induction tv with
  | nil =>
    intro pc rc np nr
    exact ⟨np, Relation.ReflTransGen.single (Step.produceClose pc rc np nr (some x))⟩
  | cons v tv ih =>
    intro pc rc np nr
    cases hf : filterPaths fs matchFn v with
    | error er =>
      exact ⟨np, Relation.ReflTransGen.single
        (Step.produceFail v tv pc rc np nr (some x) er hf)⟩
    | ok b =>
      cases b with
      | true =>
        exact ⟨np + 1, Relation.ReflTransGen.single
          (Step.produceEmitCancelled v tv pc rc np nr x hf)⟩
      | false =>
        obtain ⟨np', hr⟩ := ih pc rc np nr
        exact ⟨np', Relation.ReflTransGen.head
          (Step.produceSkip v tv pc rc np nr (some x) hf) hr⟩

theorem drain_pathChan (fs : FSWalker) (matchFn : MatchFn)
    (walkFn : String → Except GoErr String) (x : GoErr) :
    ∀ (pc rc : List String) (np nr : Nat),
      Relation.ReflTransGen (Step fs matchFn walkFn)
        ⟨[], pc, true, rc, np, nr, some x⟩ ⟨[], [], true, rc, np, nr, some x⟩ := by
  intro pc
  induction pc with
  | nil => intro rc np nr; exact Relation.ReflTransGen.refl
  | cons p pc ih =>
    intro rc np nr
    cases hw : walkFn p with
    | error er =>
      exact Relation.ReflTransGen.head
        (Step.workerTakeFail [] p pc true rc np nr (some x) er hw) (ih rc np nr)
    | ok r =>
      by_cases hr : r = ""
      · subst hr
        exact Relation.ReflTransGen.head
          (Step.workerTakeEmpty [] p pc true rc np nr (some x) hw) (ih rc np nr)
      · exact Relation.ReflTransGen.head
          (Step.workerSendCancelled [] p pc true rc np nr x r hw hr) (ih rc np nr)

theorem drain_resChan (fs : FSWalker) (matchFn : MatchFn)
    (walkFn : String → Except GoErr String) (e : Option GoErr) :
    ∀ (rc : List String) (np nr : Nat),
      Relation.ReflTransGen (Step fs matchFn walkFn)
        ⟨[], [], true, rc, np, nr, e⟩ ⟨[], [], true, [], np, nr + rc.length, e⟩ := by
  intro rc
  induction rc with
  | nil => intro np nr; exact Relation.ReflTransGen.refl
  | cons r rc ih =>
    intro np nr
    refine Relation.ReflTransGen.head (Step.collect [] [] true r rc np nr e) ?_
    have h := ih np (nr + 1)
    have harith : nr + 1 + rc.length = nr + (rc.length + 1) := by omega
    rw [harith] at h
    simpa using h

/-- C8: when any producer or worker task fails, the first error to occur
wins: along any continuation of the execution the recorded error never
changes (later participants' errors, including the cancellation errors they
return after the shared context is cancelled, are discarded), every
participant can run to completion from there, and once all participants
have stopped `Walk` returns exactly that first error. -/
theorem first_error_wins (fs : FSWalker) (matchFn : MatchFn)
    (walkFn : String → Except GoErr String) (visits : List VisitEntry)
    (s t : SysState) (x : GoErr)
    (hinit : Relation.ReflTransGen (Step fs matchFn walkFn) (initState visits) s)
    (hx : s.err = some x)
    (hreach : Relation.ReflTransGen (Step fs matchFn walkFn) s t) :
    t.err = some x ∧
    ∃ u, Relation.ReflTransGen (Step fs matchFn walkFn) t u ∧ Terminal u ∧
      walkReturn u = some x := by
  have htx : t.err = some x := reach_err_stable hreach hx
  refine ⟨htx, ?_⟩
  have htreach := Relation.ReflTransGen.trans hinit hreach
  obtain ⟨tv, pc, cl, rc, np, nr, e⟩ := t
  simp only at htx
  subst htx
  cases cl with
  | false =>
    obtain ⟨np', h1⟩ := close_producer fs matchFn walkFn x tv pc rc np nr
    have h2 := drain_pathChan fs matchFn walkFn x pc rc np' nr
    have h3 := drain_resChan fs matchFn walkFn (some x) rc np' nr
    exact ⟨⟨[], [], true, [], np', nr + rc.length, some x⟩,
      (h1.trans h2).trans h3, ⟨rfl, rfl, rfl, rfl⟩, rfl⟩
  | true =>
    have htv : tv = [] := by
      have := closed_toVisit_nil htreach
      simpa using this
    subst htv
    have h2 := drain_pathChan fs matchFn walkFn x pc rc np nr
    have h3 := drain_resChan fs matchFn walkFn (some x) rc np nr
    exact ⟨⟨[], [], true, [], np, nr + rc.length, some x⟩,
      h2.trans h3, ⟨rfl, rfl, rfl, rfl⟩, rfl⟩

theorem first_error_wins_witness :
    Relation.ReflTransGen (Step FSWalker.zero matchAll failFn)
      (initState [{ err := none, path := "/r/a",
                    info := { name := "a", isRegular := true, isDir := false } }])
      ⟨[], [], false, [], 1, 0, some (GoErr.transformErr "boom")⟩ ∧
    (⟨[], [], false, [], 1, 0, some (GoErr.transformErr "boom")⟩ : SysState).err =
      some (GoErr.transformErr "boom") ∧
    ((⟨[], [], false, [], 1, 0, some (GoErr.transformErr "boom")⟩ : SysState).err =
        some (GoErr.transformErr "boom") ∧
      ∃ u, Relation.ReflTransGen (Step FSWalker.zero matchAll failFn)
          ⟨[], [], false, [], 1, 0, some (GoErr.transformErr "boom")⟩ u ∧
        Terminal u ∧ walkReturn u = some (GoErr.transformErr "boom")) := by
  have h1 : Relation.ReflTransGen (Step FSWalker.zero matchAll failFn)
      (initState [{ err := none, path := "/r/a",
                    info := { name := "a", isRegular := true, isDir := false } }])
      ⟨[], [], false, [], 1, 0, some (GoErr.transformErr "boom")⟩ :=
    Relation.ReflTransGen.head
      (Step.produceEmit _ [] [] [] 0 0 none rfl)
      (Relation.ReflTransGen.single
        (Step.workerTakeFail [] "/r/a" [] false [] 1 0 none
          (GoErr.transformErr "boom") rfl))
  exact ⟨h1, rfl,
    first_error_wins FSWalker.zero matchAll failFn _ _ _ (GoErr.transformErr "boom")
      h1 rfl Relation.ReflTransGen.refl⟩
